import Mathlib

/-!
Verification of the Knessight batch-orchestration core.

Shallow embedding of the Python modules under `src/knessight/modules/`:
`job_tracker.py` (work-item state store), `batch_manager.py` (batch
submission, polling, result retrieval, bounded retry),
`filter_pipeline.py` (intermediate-artifact append), `output.py`
(aggregation), and `score_pipeline.py` (reasoning-field assembly).

Persistence (JSON files on disk) is modelled as in-memory state; the
`datetime.now()` timestamps and externally generated batch ids are passed
in as explicit arguments. Dictionaries keyed by strings are modelled as
functions `String → Option _`.
-/

namespace Knessight

/-! ## JobTracker (`job_tracker.py`)

`JobTracker._status` is a JSON dict from `"<person_id>_<topic>"` to a
record with a `status` field and optional batch-id / timestamp fields.
A record field absent from the Python dict is `none` here. -/

/-- One value of the `_status` dict in `job_tracker.py`: the per-pair
record with its `status` string and the optional bookkeeping fields. -/
structure PairRecord where
  status : String
  filterIds : Option (List String) := none
  filterAt : Option String := none
  scoreIds : Option (List String) := none
  scoreAt : Option String := none
  deriving Repr, DecidableEq

/-- The `JobTracker._status` dict: key string to record. -/
def Store : Type := String → Option PairRecord

/-- The empty store (fresh `job_status.json`). -/
def emptyStore : Store := fun _ => none

/-- `JobTracker._make_key`: `f"{person_id}_{topic}"`. -/
def makeKey (personId : Int) (topic : String) : String :=
  toString personId ++ "_" ++ topic

/-- Point update of the status dict (`self._status[key] = rec`). -/
def Store.set (st : Store) (key : String) (rec : PairRecord) : Store :=
  fun k => if k = key then some rec else st k

/-- `JobTracker.get_pending_pairs`: for each candidate pair in order,
a pair with no entry is pending for `filter`; a stored pair is pending
for `filter` iff its status is `"pending"` and pending for `score` iff
its status is `"filter_complete"`. -/
def getPendingPairs (st : Store) (phase : String)
    (allPairs : List (Int × String)) : List (Int × String) :=
  allPairs.filter fun pt =>
    match st (makeKey pt.1 pt.2) with
    | none => phase = "filter"
    | some rec =>
        (phase = "filter" ∧ rec.status = "pending") ∨
        (phase = "score" ∧ rec.status = "filter_complete")

/-- `JobTracker.mark_filter_complete`: replaces the pair's record with
status `"filter_complete"`, the given filter batch ids and timestamp,
carrying over `score_batch_job_ids` (default `[]`) from any prior
record; the prior `score_completed_at` is not carried. -/
def markFilterComplete (st : Store) (personId : Int) (topic : String)
    (batchJobIds : List String) (now : String) : Store :=
  let key := makeKey personId topic
  st.set key
    { status := "filter_complete"
      filterIds := some batchJobIds
      filterAt := some now
      scoreIds := some (((st key).bind PairRecord.scoreIds).getD []) }

/-- `JobTracker.mark_score_complete`: if the pair has no record, start
from `{"status": "pending"}`; then set status `"score_complete"` and
record the score batch ids and timestamp, keeping the other fields. -/
def markScoreComplete (st : Store) (personId : Int) (topic : String)
    (batchJobIds : List String) (now : String) : Store :=
  let key := makeKey personId topic
  let base := (st key).getD { status := "pending" }
  st.set key
    { base with
      status := "score_complete"
      scoreIds := some batchJobIds
      scoreAt := some now }

/-- One iteration of the loop body of `JobTracker.reset_pairs` for a
single pair. -/
def resetOne (phase : Option String) (st : Store) (pt : Int × String) :
    Store :=
  let key := makeKey pt.1 pt.2
  if phase = some "filter" ∨ phase = none then
    st.set key { status := "pending" }
  else if phase = some "score" then
    match st key with
    | some rec =>
        if rec.status = "score_complete" then
          st.set key { rec with status := "filter_complete" }
        else st
    | none => st
  else st

/-- `JobTracker.reset_pairs`: fold the per-pair reset over the list. -/
def resetPairs (st : Store) (pairs : List (Int × String))
    (phase : Option String) : Store :=
  pairs.foldl (resetOne phase) st

/-- Phase rank of a stored record: `Pending` (no entry, or status
`"pending"`) is 0, `"filter_complete"` is 1, `"score_complete"` is 2. -/
def stateRank : Option PairRecord → Nat
  | none => 0
  | some rec =>
      if rec.status = "filter_complete" then 1
      else if rec.status = "score_complete" then 2
      else 0

/-- `true` iff some pair of the list has this key. -/
def hitBy (pairs : List (Int × String)) (k : String) : Bool :=
  pairs.any fun pt => makeKey pt.1 pt.2 = k

/-- The store of the spec's pending-set scenario: item A = `(1,"alpha")`
pending, B = `(2,"beta")` filter-complete, C = `(3,"gamma")`
score-complete. -/
def scenarioStore : Store :=
  ((emptyStore.set (makeKey 1 "alpha") { status := "pending" }).set
      (makeKey 2 "beta") { status := "filter_complete" }).set
    (makeKey 3 "gamma") { status := "score_complete" }

/-- The store used to witness the frame property of
`mark_filter_complete`: one pair already carrying score batch ids. -/
def frameStore : Store :=
  emptyStore.set (makeKey 5 "env")
    { status := "score_complete", scoreIds := some ["sjob"] }

/-! ## BatchManager (`batch_manager.py`)

Requests are opaque payloads, modelled as strings. The `metadata` dict
is modelled by the one entry the retry logic reads and writes,
`retry_attempt` (`none` when the key is absent, as for a fresh batch).
Batch ids and `datetime.now()` timestamps are supplied by the caller. -/

/-- The `metadata` dict of a batch, reduced to its `retry_attempt`
entry. -/
structure BatchMetadata where
  retryAttempt : Option Nat := none
  deriving Repr, DecidableEq

/-- One entry of the `failed_speeches.json` dead-letter ledger:
`{"request": ..., "metadata": ..., "timestamp": ...}`. -/
structure FailedEntry where
  request : String
  meta : BatchMetadata
  timestamp : String
  deriving Repr, DecidableEq

/-- `BatchManager.retry_failed_requests`: reads `retry_attempt`
(default 0); if it is `≥ max_attempts`, appends every failed request to
the dead-letter ledger and returns no batch id; otherwise writes
`retry_attempt := attempt + 1` into the metadata and resubmits the
requests as a new batch, returning its id. The result is the returned
id (if any), the metadata dict after the call, and the ledger after the
call. -/
def retryFailedRequests (failedRequests : List String)
    (metadata : BatchMetadata) (maxAttempts : Nat)
    (ledger : List FailedEntry) (now : String) (newBatchId : String) :
    Option String × BatchMetadata × List FailedEntry :=
  let attempt := metadata.retryAttempt.getD 0
  if attempt ≥ maxAttempts then
    (none, metadata, ledger ++ failedRequests.map fun req => ⟨req, metadata, now⟩)
  else
    (some newBatchId, { retryAttempt := some (attempt + 1) }, ledger)

/-- The fields of the service's batch object that
`BatchManager.retrieve_results` reads. -/
structure Batch where
  status : String
  outputFileId : Option String
  deriving Repr, DecidableEq

/-- The two `ValueError`s of `BatchManager.retrieve_results`: batch not
completed yet, and completed batch with no output file. -/
inductive RetrieveError where
  | notReady (status : String)
  | noOutput
  deriving Repr, DecidableEq

/-- Python `str.split(sep)` for a one-character separator: split at
every occurrence, keeping empty pieces. -/
def splitChar (sep : Char) : List Char → List (List Char)
  | [] => [[]]
  | c :: rest =>
      let r := splitChar sep rest
      if c = sep then [] :: r
      else
        match r with
        | [] => [[c]]
        | h :: t => (c :: h) :: t

/-- Python `str.strip()`: drop leading and trailing whitespace. -/
def pyStrip (s : List Char) : List Char :=
  ((s.dropWhile Char.isWhitespace).reverse.dropWhile Char.isWhitespace).reverse

/-- The lines of `content.strip().split("\n")`. -/
def strippedLines (content : String) : List String :=
  (splitChar '\n' (pyStrip content.data)).map fun cs => String.mk cs

/-- `BatchManager.retrieve_results`: raises if the batch status is not
`"completed"`, raises if `output_file_id` is falsy (absent or empty),
and otherwise splits the stripped downloaded content on newlines and
parses each non-empty line into one result record (the record is
modelled by its raw JSON line). -/
def retrieveResults (batch : Batch) (content : String) :
    Except RetrieveError (List String) :=
  if batch.status ≠ "completed" then .error (.notReady batch.status)
  else if batch.outputFileId.getD "" = "" then .error .noOutput
  else .ok ((strippedLines content).filter fun line => line ≠ "")

/-- Outcome of one `client.batches.retrieve` call inside
`BatchManager.poll_batches`: either a status string or a raised
exception. -/
inductive PollOutcome where
  | ok (status : String)
  | exn
  deriving Repr, DecidableEq

/-- The terminal statuses of the polling loop. -/
def terminalStatuses : List String :=
  ["completed", "failed", "expired", "cancelled"]

/-- What one poll of one batch id contributes to the `completed` map:
a terminal status is recorded as itself, an exception is recorded as
`"error"`, and a non-terminal status records nothing (the id stays in
`remaining`). -/
def outcomeRecord : PollOutcome → Option String
  | .ok s => if s ∈ terminalStatuses then some s else none
  | .exn => some "error"

/-- One pass of the inner `for batch_id in list(remaining)` loop of
`poll_batches`: every remaining id is polled in order; ids whose poll
is terminal or raises are moved to the completed map, the others stay
outstanding. -/
def pollRound (poll : String → PollOutcome) :
    List String → List (String × String) × List String
  | [] => ([], [])
  | id :: rest =>
      let tail := pollRound poll rest
      match outcomeRecord (poll id) with
      | some s => ((id, s) :: tail.1, tail.2)
      | none => (tail.1, id :: tail.2)

/-- The `while remaining:` loop of `poll_batches`. `poll round id` is
the service's answer for `id` in polling round `round`; `fuel` bounds
the number of rounds, returning `none` when the loop has not exited
within the bound. -/
def pollLoop (poll : Nat → String → PollOutcome) (round fuel : Nat)
    (completed : List (String × String)) (remaining : List String) :
    Option (List (String × String)) :=
  match remaining with
  | [] => some completed
  | _ :: _ =>
      match fuel with
      | 0 => none
      | fuel' + 1 =>
          let step := pollRound (poll round) remaining
          pollLoop poll (round + 1) fuel' (completed ++ step.1) step.2

/-- `BatchManager.poll_batches`: poll all ids until each reaches a
terminal status or errors; returns the batch-id → final-status map. -/
def pollBatches (poll : Nat → String → PollOutcome) (batchIds : List String)
    (fuel : Nat) : Option (List (String × String)) :=
  pollLoop poll 0 fuel [] batchIds

/-- The first recorded outcome of one id's own poll stream, searching
rounds `round, round+1, …` within `fuel` rounds: the status the loop
should assign to that id, independent of every other id. -/
def firstOutcome (poll : Nat → String → PollOutcome) (id : String) :
    Nat → Nat → Option String
  | _, 0 => none
  | round, fuel + 1 =>
      match outcomeRecord (poll round id) with
      | some s => some s
      | none => firstOutcome poll id (round + 1) fuel

/-- The poll schedule used to witness the polling theorem: id `"a"`
raises on its first poll, id `"b"` is in progress once and then
completes. -/
def witnessPoll : Nat → String → PollOutcome := fun round id =>
  if id = "a" then .exn
  else if round = 0 then .ok "in_progress"
  else .ok "completed"

/-! ## OutputManager (`output.py`)

The two aggregate artifacts are modelled as in-memory maps: the MK
`main.json` documents keyed by person id, and the per-topic JSON files
keyed by topic name. Numeric averages are rationals; Python's
`round(x, 2)` is embedded as exact half-to-even rounding at two decimal
places. -/

/-- One row of a final scored-speech CSV (`score_pipeline.py` writes it,
`output.py` aggregates its `Rank` column). -/
structure ScoredSpeech where
  id : Int
  date : String
  topic : String
  text : String
  rank : ℚ
  reasoning : String
  deriving Repr, DecidableEq

/-- One `{topicName, count, average}` entry of a MK `main.json`. -/
structure TopicEntry where
  topicName : String
  count : Nat
  average : ℚ
  deriving Repr, DecidableEq

/-- A MK `main.json` document. -/
structure MkDoc where
  id : Int
  knessetSiteId : Int
  name : String
  imageUrl : String
  description : String
  topics : List TopicEntry
  deriving Repr, DecidableEq

/-- What `Database.get_person_metadata` supplies to `_update_mk_json`:
`name` plus the optional faction / party fields. -/
structure PersonMetadata where
  name : String
  faction : Option String := none
  partyName : Option String := none
  deriving Repr, DecidableEq

/-- Round to the nearest integer, ties to even (Python's `round`). -/
def roundHalfEven (q : ℚ) : ℤ :=
  let f := ⌊q⌋
  let r := q - f
  if r < 1 / 2 then f
  else if 1 / 2 < r then f + 1
  else if f % 2 = 0 then f else f + 1

/-- Python's `round(q, 2)`. -/
def round2 (q : ℚ) : ℚ := (roundHalfEven (q * 100) : ℚ) / 100

/-- The `for topic_data in data["Topics"]` update of `_update_mk_json`:
overwrite the first entry with this `topicName` in place, or append a
new entry when none matches. -/
def setTopic (topic : String) (count : Nat) (average : ℚ) :
    List TopicEntry → List TopicEntry
  | [] => [⟨topic, count, average⟩]
  | e :: rest =>
      if e.topicName = topic then ⟨topic, count, average⟩ :: rest
      else e :: setTopic topic count average rest

/-- The fresh `main.json` document `_update_mk_json` creates for a
person seen for the first time. -/
def freshMkDoc (personId : Int) (md : PersonMetadata) : MkDoc :=
  { id := personId, knessetSiteId := personId, name := md.name,
    imageUrl := "",
    description := "Faction: " ++ md.faction.getD "N/A" ++
      ", Party: " ++ md.partyName.getD "N/A",
    topics := [] }

/-- `OutputManager._update_mk_json`: load the MK's document or create a
fresh one from the database metadata (writing nothing when the database
has no entry for the person), set the topic's `{count, average}` with
the average rounded to two decimals, and save. -/
def updateMkJson (db : Int → Option PersonMetadata)
    (docs : Int → Option MkDoc) (personId : Int) (topic : String)
    (count : Nat) (average : ℚ) : Int → Option MkDoc :=
  match docs personId with
  | some data =>
      fun p =>
        if p = personId then
          some { data with topics := setTopic topic count (round2 average) data.topics }
        else docs p
  | none =>
      match db personId with
      | none => docs
      | some md =>
          let data := freshMkDoc personId md
          fun p =>
            if p = personId then
              some { data with
                topics := setTopic topic count (round2 average) data.topics }
            else docs p

/-- `OutputManager._update_topic_json`: load the topic's JSON (an empty
dict when the file does not exist), set the person's `[count, average]`
with the average rounded to two decimals, and save. -/
def updateTopicJson (files : String → Option (Int → Option (Nat × ℚ)))
    (topic : String) (personId : Int) (count : Nat) (average : ℚ) :
    String → Option (Int → Option (Nat × ℚ)) :=
  let data := (files topic).getD fun _ => none
  let updated := fun p =>
    if p = personId then some (count, round2 average) else data p
  fun t => if t = topic then some updated else files t

/-- The two aggregate artifacts together. -/
structure AggState where
  mkDocs : Int → Option MkDoc
  topicFiles : String → Option (Int → Option (Nat × ℚ))

/-- `OutputManager.update_aggregations`: no-op on an empty result list;
otherwise compute `count = len(scored_speeches)` and
`average = mean(ranks)` and write both aggregate documents. -/
def updateAggregations (db : Int → Option PersonMetadata) (st : AggState)
    (personId : Int) (topic : String)
    (scoredSpeeches : List ScoredSpeech) : AggState :=
  if scoredSpeeches = [] then st
  else
    let count := scoredSpeeches.length
    let average := (scoredSpeeches.map ScoredSpeech.rank).sum / count
    { mkDocs := updateMkJson db st.mkDocs personId topic count average
      topicFiles := updateTopicJson st.topicFiles topic personId count average }

/-! ## FilterPipeline (`filter_pipeline.py`) -/

/-- One `{Id, Text, RelevanceScore}` row of an intermediate filtered
CSV. -/
structure FilterRow where
  id : Int
  text : String
  relevanceScore : Int
  deriving Repr, DecidableEq

/-- `FilterPipeline._save_filtered_speeches`: the CSV is opened in
append mode, so the chunk's rows are appended after whatever rows the
artifact already holds — unconditionally, with no deduplication. -/
def saveFilteredSpeeches (artifact : List FilterRow)
    (speeches : List FilterRow) : List FilterRow :=
  artifact ++ speeches

/-! ## ScorePipeline (`score_pipeline.py`)

The `custom_id` string `f"score_{speech_id}_{int(include_reasoning)}"`
is modelled by its underscore-separated components (joining on and
splitting at `"_"` is a bijection between the two forms, the id and
flag components containing no underscore). -/

/-- The components of the `custom_id` built by
`_build_scoring_request`. -/
def scoringCustomIdParts (speechId : Int) (includeReasoning : Bool) :
    List String :=
  ["score", toString speechId, if includeReasoning then "1" else "0"]

/-- Python `int(s)` on a non-negative digit string (`none` on anything
else). -/
def pyInt? (s : String) : Option Nat :=
  match s.data with
  | [] => none
  | cs =>
      cs.foldl
        (fun acc c =>
          acc.bind fun n =>
            if c.isDigit then some (10 * n + (c.toNat - 48)) else none)
        (some 0)

/-- `has_reasoning = bool(int(parts[2]))` in
`ScorePipeline._process_batch_results`. -/
def hasReasoningOfParts (parts : List String) : Option Bool :=
  (parts.get? 2).bind fun s => (pyInt? s).map fun n => n != 0

/-- The `"Reasoning"` value stored in the final artifact row:
`reasoning if (has_reasoning and reasoning) else ""`. -/
def reasoningField (hasReasoning : Bool) (reasoning : Option String) :
    String :=
  match reasoning with
  | some s => if hasReasoning = true ∧ s ≠ "" then s else ""
  | none => ""

/-- Database for the aggregation witness: person 9 exists. -/
def aggDb : Int → Option PersonMetadata :=
  fun p => if p = 9 then some { name := "MK Nine" } else none

/-- Empty aggregate state for the aggregation witness. -/
def aggState0 : AggState := ⟨fun _ => none, fun _ => none⟩

/-- A one-row result list for the aggregation witness. -/
def aggR0 : List ScoredSpeech :=
  [{ id := 11, date := "2020-01-01", topic := "health", text := "t",
     rank := 4, reasoning := "" }]

theorem lookup_append_of_none {α β : Type} [BEq α] (a : α)
    (l1 l2 : List (α × β)) (h : List.lookup a l1 = none) :
    List.lookup a (l1 ++ l2) = List.lookup a l2 := by
  induction l1 with
  | nil => rfl
  | cons p rest ih =>
      cases hb : a == p.1 with
      | true => simp [List.lookup, hb] at h
      | false =>
          simp [List.lookup, hb] at h ⊢
          exact ih h

theorem lookup_append_of_some {α β : Type} [BEq α] (a : α) (b : β)
    (l1 l2 : List (α × β)) (h : List.lookup a l1 = some b) :
    List.lookup a (l1 ++ l2) = some b := by
  induction l1 with
  | nil => simp [List.lookup] at h
  | cons p rest ih =>
      cases hb : a == p.1 with
      | true => simp [List.lookup, hb] at h ⊢; exact h
      | false =>
          simp [List.lookup, hb] at h ⊢
          exact ih h

theorem pollRound_snd_sublist (f : String → PollOutcome) :
    ∀ rem : List String, (pollRound f rem).2.Sublist rem := by
  intro rem
  induction rem with
  | nil => simp [pollRound]
  | cons id rest ih =>
      cases h : outcomeRecord (f id) with
      | some s =>
          simp only [pollRound, h]
          exact ih.cons id
      | none =>
          simp only [pollRound, h]
          exact ih.cons₂ id

theorem pollRound_mem_snd (f : String → PollOutcome) :
    ∀ (rem : List String) (id : String),
      id ∈ (pollRound f rem).2 ↔ id ∈ rem ∧ outcomeRecord (f id) = none := by
  intro rem
  induction rem with
  | nil => intro id; simp [pollRound]
  | cons id' rest ih =>
      intro id
      cases h : outcomeRecord (f id') with
      | some s =>
          simp only [pollRound, h]
          rw [ih id]
          constructor
          · rintro ⟨h1, h2⟩; exact ⟨List.mem_cons_of_mem _ h1, h2⟩
          · rintro ⟨h1, h2⟩
            rcases List.mem_cons.mp h1 with rfl | h1
            · rw [h] at h2; cases h2
            · exact ⟨h1, h2⟩
      | none =>
          simp only [pollRound, h, List.mem_cons]
          rw [ih id]
          constructor
          · rintro (rfl | ⟨h1, h2⟩)
            · exact ⟨Or.inl rfl, h⟩
            · exact ⟨Or.inr h1, h2⟩
          · rintro ⟨rfl | h1, h2⟩
            · exact Or.inl rfl
            · exact Or.inr ⟨h1, h2⟩

theorem pollRound_lookup_notMem (f : String → PollOutcome) :
    ∀ (rem : List String) (id : String), id ∉ rem →
      List.lookup id (pollRound f rem).1 = none := by
  intro rem
  induction rem with
  | nil => intro id _; rfl
  | cons id' rest ih =>
      intro id hid
      have h1 : id ≠ id' := fun h => hid (h ▸ List.mem_cons_self id' rest)
      have h2 : id ∉ rest := fun h => hid (List.mem_cons_of_mem _ h)
      cases h : outcomeRecord (f id') with
      | some s =>
          simp only [pollRound, h]
          simp [List.lookup, beq_eq_false_iff_ne.mpr h1, ih id h2]
      | none =>
          simp only [pollRound, h]
          exact ih id h2

theorem pollRound_lookup_mem (f : String → PollOutcome) :
    ∀ rem : List String, rem.Nodup → ∀ id ∈ rem,
      List.lookup id (pollRound f rem).1 = outcomeRecord (f id) := by
  intro rem
  induction rem with
  | nil => intro _ id h; cases h
  | cons id' rest ih =>
      intro hnd id hid
      have hnd' : rest.Nodup := hnd.of_cons
      rcases List.mem_cons.mp hid with rfl | hmem
      · have hnin : id ∉ rest := (List.nodup_cons.mp hnd).1
        cases h : outcomeRecord (f id) with
        | some s => simp [pollRound, h, List.lookup]
        | none => simp [pollRound, h, pollRound_lookup_notMem f rest id hnin]
      · have hne : id ≠ id' := by
          rintro rfl
          exact (List.nodup_cons.mp hnd).1 hmem
        cases h : outcomeRecord (f id') with
        | some s =>
            simp only [pollRound, h]
            simp [List.lookup, beq_eq_false_iff_ne.mpr hne, ih hnd' id hmem]
        | none =>
            simp only [pollRound, h]
            exact ih hnd' id hmem

theorem pollLoop_lookup (poll : Nat → String → PollOutcome) :
    ∀ (fuel round : Nat) (completed : List (String × String))
      (remaining : List String) (m : List (String × String)),
      remaining.Nodup →
      (∀ id ∈ remaining, List.lookup id completed = none) →
      pollLoop poll round fuel completed remaining = some m →
      (∀ (id : String) (s : String),
        List.lookup id completed = some s → List.lookup id m = some s) ∧
      (∀ id ∈ remaining, ∃ s,
        firstOutcome poll id round fuel = some s ∧
        List.lookup id m = some s) := by
  intro fuel
  induction fuel with
  | zero =>
      intro round completed remaining m _ _ hrun
      cases remaining with
      | nil =>
          simp only [pollLoop, Option.some.injEq] at hrun
          subst hrun
          exact ⟨fun id s h => h, fun id h => absurd h (List.not_mem_nil id)⟩
      | cons x xs => simp [pollLoop] at hrun
  | succ fuel ih =>
      intro round completed remaining m hnd hdisj hrun
      cases remaining with
      | nil =>
          simp only [pollLoop, Option.some.injEq] at hrun
          subst hrun
          exact ⟨fun id s h => h, fun id h => absurd h (List.not_mem_nil id)⟩
      | cons x xs =>
          have hrun' : pollLoop poll (round + 1) fuel
              (completed ++ (pollRound (poll round) (x :: xs)).1)
              (pollRound (poll round) (x :: xs)).2 = some m := hrun
          set c := (pollRound (poll round) (x :: xs)).1 with hc
          set r := (pollRound (poll round) (x :: xs)).2 with hr
          have hrnd : r.Nodup := (pollRound_snd_sublist (poll round) (x :: xs)).nodup hnd
          have hdisj' : ∀ id ∈ r, List.lookup id (completed ++ c) = none := by
            intro id hidr
            obtain ⟨hidrem, hnone⟩ := (pollRound_mem_snd (poll round) (x :: xs) id).mp
              (hr ▸ hidr)
            have h1 : List.lookup id completed = none := hdisj id hidrem
            have h2 : List.lookup id c = none := by
              rw [hc, pollRound_lookup_mem (poll round) (x :: xs) hnd id hidrem]
              exact hnone
            rw [lookup_append_of_none id completed c h1]
            exact h2
          obtain ⟨hpres, hrem⟩ := ih (round + 1) (completed ++ c) r m hrnd hdisj' hrun'
          constructor
          · intro id s hs
            exact hpres id s (lookup_append_of_some id s completed c hs)
          · intro id hid
            cases h : outcomeRecord (poll round id) with
            | some s =>
                have hlc : List.lookup id c = some s := by
                  rw [hc, pollRound_lookup_mem (poll round) (x :: xs) hnd id hid]
                  exact h
                have hla : List.lookup id (completed ++ c) = some s := by
                  rw [lookup_append_of_none id completed c (hdisj id hid)]
                  exact hlc
                exact ⟨s, by simp [firstOutcome, h], hpres id s hla⟩
            | none =>
                have hidr : id ∈ r := by
                  rw [hr]
                  exact (pollRound_mem_snd (poll round) (x :: xs) id).mpr ⟨hid, h⟩
                obtain ⟨s, hfo, hlm⟩ := hrem id hidr
                exact ⟨s, by simp [firstOutcome, h, hfo], hlm⟩

theorem setTopic_idem (topic : String) (count : Nat) (average : ℚ) :
    ∀ ts : List TopicEntry,
      setTopic topic count average (setTopic topic count average ts) =
        setTopic topic count average ts := by
  intro ts
  induction ts with
  | nil => simp [setTopic]
  | cons e rest ih =>
      by_cases he : e.topicName = topic
      · simp [setTopic, he]
      · simp [setTopic, he, ih]

theorem updateMkJson_idem (db : Int → Option PersonMetadata)
    (docs : Int → Option MkDoc) (personId : Int) (topic : String)
    (count : Nat) (average : ℚ) :
    updateMkJson db (updateMkJson db docs personId topic count average)
        personId topic count average =
      updateMkJson db docs personId topic count average := by
  set F := updateMkJson db docs personId topic count average with hFdef
  cases hd : docs personId with
  | some data =>
      have hF : F personId =
          some { data with
            topics := setTopic topic count (round2 average) data.topics } := by
        rw [hFdef]; simp [updateMkJson, hd]
      funext p
      by_cases hp : p = personId
      · subst hp
        simp only [updateMkJson, hF]
        simp [setTopic_idem]
      · simp only [updateMkJson, hF]
        simp [hp]
  | none =>
      cases hdb : db personId with
      | none =>
          have hF : F = docs := by
            rw [hFdef]; simp [updateMkJson, hd, hdb]
          rw [hF, ← hFdef]
          exact hF
      | some md =>
          have hF : F personId =
              some { freshMkDoc personId md with
                topics := setTopic topic count (round2 average)
                  (freshMkDoc personId md).topics } := by
            rw [hFdef]; simp [updateMkJson, hd, hdb]
          funext p
          by_cases hp : p = personId
          · subst hp
            simp only [updateMkJson, hF]
            simp [setTopic_idem]
          · simp only [updateMkJson, hF]
            simp [hp]

theorem updateTopicJson_idem (files : String → Option (Int → Option (Nat × ℚ)))
    (topic : String) (personId : Int) (count : Nat) (average : ℚ) :
    updateTopicJson (updateTopicJson files topic personId count average)
        topic personId count average =
      updateTopicJson files topic personId count average := by
  funext t
  by_cases ht : t = topic
  · subst ht
    simp only [updateTopicJson, if_pos rfl, Option.getD_some, Option.some.injEq]
    funext p
    by_cases hp : p = personId <;> simp [hp]
  · simp [updateTopicJson, ht]

theorem hitBy_cons (pt : Int × String) (rest : List (Int × String)) (k : String) :
    hitBy (pt :: rest) k = (decide (makeKey pt.1 pt.2 = k) || hitBy rest k) := by
  simp [hitBy]

theorem resetPairs_pending_lookup (phase : Option String)
    (hph : phase = some "filter" ∨ phase = none) (pairs : List (Int × String)) :
    ∀ (st : Store) (k : String),
      resetPairs st pairs phase k =
        if hitBy pairs k then some { status := "pending" } else st k := by
  induction pairs with
  | nil => intro st k; simp [resetPairs, hitBy]
  | cons pt rest ih =>
      intro st k
      have hstep : resetPairs st (pt :: rest) phase =
          resetPairs (resetOne phase st pt) rest phase := rfl
      rw [hstep, ih]
      have hone : resetOne phase st pt =
          Store.set st (makeKey pt.1 pt.2) { status := "pending" } := by
        rcases hph with h | h <;> simp [resetOne, h]
      rw [hone, hitBy_cons]
      cases hr : hitBy rest k with
      | true => simp
      | false =>
          by_cases hk : k = makeKey pt.1 pt.2
          · simp [Store.set, hk]
          · simp [Store.set, hk, Ne.symm hk]

theorem resetPairs_score_lookup (pairs : List (Int × String)) :
    ∀ (st : Store) (k : String),
      resetPairs st pairs (some "score") k =
        match st k with
        | none => none
        | some rec =>
            if rec.status == "score_complete" && hitBy pairs k then
              some { rec with status := "filter_complete" }
            else some rec := by
  induction pairs with
  | nil =>
      intro st k
      cases h : st k <;> simp [resetPairs, hitBy, h]
  | cons pt rest ih =>
      intro st k
      have hstep : resetPairs st (pt :: rest) (some "score") =
          resetPairs (resetOne (some "score") st pt) rest (some "score") := rfl
      rw [hstep, ih]
      by_cases hk : k = makeKey pt.1 pt.2
      · subst hk
        cases h : st (makeKey pt.1 pt.2) with
        | none =>
            have hre : resetOne (some "score") st pt = st := by
              simp [resetOne, h]
            rw [hre, h]
        | some rec =>
            by_cases hs : rec.status = "score_complete"
            · have hre : resetOne (some "score") st pt (makeKey pt.1 pt.2) =
                  some { rec with status := "filter_complete" } := by
                simp [resetOne, h, hs, Store.set]
              rw [hre]
              simp [hitBy_cons, hs]
            · have hre : resetOne (some "score") st pt = st := by
                simp [resetOne, h, hs]
              rw [hre, h]
              simp [hitBy_cons, hs]
      · have hre : resetOne (some "score") st pt k = st k := by
          cases h : st (makeKey pt.1 pt.2) with
          | none => simp [resetOne, h]
          | some rec =>
              by_cases hs : rec.status = "score_complete" <;>
                simp [resetOne, h, hs, Store.set, hk]
        rw [hre]
        cases h : st k <;> simp [hitBy_cons, Ne.symm hk]

theorem resetOne_other (phase : Option String) (st : Store) (pt : Int × String)
    (h1 : phase ≠ some "filter") (h2 : phase ≠ none) (h3 : phase ≠ some "score") :
    resetOne phase st pt = st := by
  simp [resetOne, h1, h2, h3]

theorem resetPairs_other (phase : Option String)
    (h1 : phase ≠ some "filter") (h2 : phase ≠ none) (h3 : phase ≠ some "score")
    (pairs : List (Int × String)) :
    ∀ st : Store, resetPairs st pairs phase = st := by
  induction pairs with
  | nil => intro st; rfl
  | cons pt rest ih =>
      intro st
      have hstep : resetPairs st (pt :: rest) phase =
          resetPairs (resetOne phase st pt) rest phase := rfl
      rw [hstep, resetOne_other phase st pt h1 h2 h3, ih]

theorem stateRank_eq_two {o : Option PairRecord} (h : stateRank o = 2) :
    ∃ rec, o = some rec ∧ rec.status = "score_complete" := by
  cases o with
  | none => simp [stateRank] at h
  | some rec =>
      refine ⟨rec, rfl, ?_⟩
      by_cases h1 : rec.status = "filter_complete" <;>
        by_cases h2 : rec.status = "score_complete" <;>
          simp [stateRank, h1, h2] at h ⊢

end Knessight

open Knessight

/-- C8. Reset semantics: for every store, pair list and key,
`reset_pairs` with phase `filter` (or no phase) forces every listed
pair's record to status `"pending"` and leaves other keys unchanged;
with phase `score` it moves exactly the listed pairs whose status is
`"score_complete"` back to `"filter_complete"` and is a no-op on every
other record. -/
theorem reset_semantics :
    (∀ (st : Store) (pairs : List (Int × String)) (k : String),
      resetPairs st pairs (some "filter") k =
        if hitBy pairs k then some { status := "pending" } else st k) ∧
    (∀ (st : Store) (pairs : List (Int × String)) (k : String),
      resetPairs st pairs none k =
        if hitBy pairs k then some { status := "pending" } else st k) ∧
    (∀ (st : Store) (pairs : List (Int × String)) (k : String),
      resetPairs st pairs (some "score") k =
        match st k with
        | none => none
        | some rec =>
            if rec.status == "score_complete" && hitBy pairs k then
              some { rec with status := "filter_complete" }
            else some rec) :=
  ⟨fun st pairs k => resetPairs_pending_lookup _ (Or.inl rfl) pairs st k,
   fun st pairs k => resetPairs_pending_lookup _ (Or.inr rfl) pairs st k,
   fun st pairs k => resetPairs_score_lookup pairs st k⟩

/-- C9. Filter-completion frame property: `mark_filter_complete` sets the
pair's status to `"filter_complete"`, records the filter batch ids and
the completion timestamp, preserves any previously stored
`score_batch_job_ids` of that pair, and leaves every other key's record
unchanged. -/
theorem filter_completion_frame :
    ∀ (st : Store) (p : Int) (t : String) (ids : List String) (now : String),
      (markFilterComplete st p t ids now (makeKey p t)).map PairRecord.status =
        some "filter_complete" ∧
      (markFilterComplete st p t ids now (makeKey p t)).bind PairRecord.filterIds =
        some ids ∧
      (markFilterComplete st p t ids now (makeKey p t)).bind PairRecord.filterAt =
        some now ∧
      (∀ prior, (st (makeKey p t)).bind PairRecord.scoreIds = some prior →
        (markFilterComplete st p t ids now (makeKey p t)).bind PairRecord.scoreIds =
          some prior) ∧
      (∀ k, k ≠ makeKey p t → markFilterComplete st p t ids now k = st k) := by
  intro st p t ids now
  refine ⟨?_, ?_, ?_, ?_, ?_⟩
  · simp [markFilterComplete, Store.set]
  · simp [markFilterComplete, Store.set]
  · simp [markFilterComplete, Store.set]
  · intro prior h
    simp [markFilterComplete, Store.set, h]
  · intro k hk
    simp [markFilterComplete, Store.set, hk]

/-- Witness for C9 at a concrete store: the pair `(5,"env")` holds score
batch ids `["sjob"]`, which survive `mark_filter_complete`, and the key
of `(6,"env")` is untouched. -/
theorem filter_completion_frame_witness :
    (markFilterComplete frameStore 5 "env" ["fjob"] "t1" (makeKey 5 "env")).bind
        PairRecord.scoreIds = some ["sjob"] ∧
    markFilterComplete frameStore 5 "env" ["fjob"] "t1" (makeKey 6 "env") =
      frameStore (makeKey 6 "env") := by
  have h := filter_completion_frame frameStore 5 "env" ["fjob"] "t1"
  exact ⟨h.2.2.2.1 ["sjob"] (by decide), h.2.2.2.2 (makeKey 6 "env") (by decide)⟩

/-- C3 counterexample: the claim says the state never skips
`FilterComplete` for any sequence of store operations, but a single
`mark_score_complete` on a pair with no record jumps it from rank 0
(Pending) straight to rank 2 (ScoreComplete). -/
theorem monotonic_progression_counterexample :
    stateRank (emptyStore (makeKey 7 "econ")) = 0 ∧
    stateRank (markScoreComplete emptyStore 7 "econ" ["job1"] "t0"
      (makeKey 7 "econ")) = 2 := by
  exact ⟨rfl, by decide⟩

/-- C3 amended. Gated monotonic phase progression: when
`mark_filter_complete` is applied to a pair at rank 0 (absent or
pending) it moves it to rank 1, and `mark_score_complete` applied to a
pair at rank 1 (`filter_complete`) moves it to rank 2 — forward by
exactly one phase, never skipping `FilterComplete`; `reset_pairs` never
increases a record's rank, moves a listed `score_complete` pair back
exactly one phase for phase `score`, and back to rank 0 for phase
`filter`. -/
theorem monotonic_progression_gated :
    (∀ (st : Store) (p : Int) (t : String) (ids : List String) (now : String),
      stateRank (st (makeKey p t)) = 0 →
      stateRank (markFilterComplete st p t ids now (makeKey p t)) = 1) ∧
    (∀ (st : Store) (p : Int) (t : String) (ids : List String) (now : String),
      stateRank (st (makeKey p t)) = 1 →
      stateRank (markScoreComplete st p t ids now (makeKey p t)) = 2) ∧
    (∀ (st : Store) (pairs : List (Int × String)) (phase : Option String)
        (k : String),
      stateRank (resetPairs st pairs phase k) ≤ stateRank (st k)) ∧
    (∀ (st : Store) (pairs : List (Int × String)) (k : String),
      hitBy pairs k = true → stateRank (st k) = 2 →
      stateRank (resetPairs st pairs (some "score") k) = 1) ∧
    (∀ (st : Store) (pairs : List (Int × String)) (k : String),
      hitBy pairs k = true →
      stateRank (resetPairs st pairs (some "filter") k) = 0) := by
  refine ⟨?_, ?_, ?_, ?_, ?_⟩
  · intro st p t ids now _
    simp [markFilterComplete, Store.set, stateRank]
  · intro st p t ids now _
    simp [markScoreComplete, Store.set, stateRank]
  · intro st pairs phase k
    by_cases h1 : phase = some "filter"
    · rw [resetPairs_pending_lookup phase (Or.inl h1) pairs st k]
      split <;> simp [stateRank]
    · by_cases h2 : phase = none
      · rw [resetPairs_pending_lookup phase (Or.inr h2) pairs st k]
        split <;> simp [stateRank]
      · by_cases h3 : phase = some "score"
        · subst h3
          rw [resetPairs_score_lookup pairs st k]
          cases h : st k with
          | none => simp
          | some rec =>
              by_cases hs : rec.status = "score_complete"
              · simp only [hs]
                split <;> simp [stateRank, hs]
              · have : (rec.status == "score_complete") = false := by
                  simp [hs]
                simp [this]
        · rw [resetPairs_other phase h1 h2 h3 pairs st]
  · intro st pairs k hhit h2
    obtain ⟨rec, ho, hs⟩ := stateRank_eq_two h2
    rw [resetPairs_score_lookup pairs st k, ho]
    simp [hs, hhit, stateRank]
  · intro st pairs k hhit
    rw [resetPairs_pending_lookup _ (Or.inl rfl) pairs st k]
    simp [hhit, stateRank]

/-- Witness for C3's amended theorem at concrete inputs: marking score
complete on a `filter_complete` pair lands at rank 2, and a score-phase
reset of a `score_complete` pair lands back at rank 1. -/
theorem monotonic_progression_gated_witness :
    stateRank (markScoreComplete
      (emptyStore.set (makeKey 4 "edu") { status := "filter_complete" })
      4 "edu" ["j2"] "t2" (makeKey 4 "edu")) = 2 ∧
    stateRank (resetPairs frameStore [(5, "env")] (some "score")
      (makeKey 5 "env")) = 1 := by
  refine ⟨?_, ?_⟩
  · exact monotonic_progression_gated.2.1
      (emptyStore.set (makeKey 4 "edu") { status := "filter_complete" })
      4 "edu" ["j2"] "t2" (by decide)
  · exact monotonic_progression_gated.2.2.2.1 frameStore [(5, "env")]
      (makeKey 5 "env") (by decide) (by decide)

/-- C6. Polling error isolation and totality: whenever the polling loop
exits (the outstanding set became empty), the returned map assigns a
status to every input id, and the status of each id is the first
terminal-or-error outcome of that id's own poll stream — a poll error
is recorded as terminal status `"error"` for that id alone and does not
disturb what any other id is assigned. -/
theorem polling_isolated_total :
    ∀ (poll : Nat → String → PollOutcome) (batchIds : List String)
      (fuel : Nat) (m : List (String × String)),
      batchIds.Nodup →
      pollBatches poll batchIds fuel = some m →
      ∀ id ∈ batchIds,
        List.lookup id m = firstOutcome poll id 0 fuel ∧
        ∃ s, List.lookup id m = some s := by
  intro poll batchIds fuel m hnd hrun id hid
  obtain ⟨_, hrem⟩ := pollLoop_lookup poll fuel 0 [] batchIds m hnd
    (fun _ _ => rfl) hrun
  obtain ⟨s, hfo, hlm⟩ := hrem id hid
  exact ⟨by rw [hfo, hlm], s, hlm⟩

/-- Witness for C6: ids `"a"` and `"b"`, where `"a"` raises on its first
poll and `"b"` completes on its second; the loop exits with `"a"`
assigned `"error"` and `"b"` assigned `"completed"`. -/
theorem polling_isolated_total_witness :
    List.lookup "a" [("a", "error"), ("b", "completed")] =
        firstOutcome witnessPoll "a" 0 2 ∧
    List.lookup "b" [("a", "error"), ("b", "completed")] =
        firstOutcome witnessPoll "b" 0 2 := by
  have h := polling_isolated_total witnessPoll ["a", "b"] 2
    [("a", "error"), ("b", "completed")] (by decide) (by decide)
  exact ⟨(h "a" (by decide)).1, (h "b" (by decide)).1⟩

/-- C7. `retrieve_results` error behavior: a batch whose status is not
`"completed"` fails with the not-ready error, a completed batch with no
output artifact fails with the no-output error, and otherwise the
newline-delimited output parses into one result record per non-empty
line. -/
theorem fetch_results_behavior :
    ∀ (batch : Batch) (content : String),
      (batch.status ≠ "completed" →
        retrieveResults batch content = .error (.notReady batch.status)) ∧
      (batch.status = "completed" → batch.outputFileId.getD "" = "" →
        retrieveResults batch content = .error .noOutput) ∧
      (batch.status = "completed" → batch.outputFileId.getD "" ≠ "" →
        retrieveResults batch content =
          .ok ((strippedLines content).filter fun line => line ≠ "")) := by
  intro batch content
  refine ⟨?_, ?_, ?_⟩
  · intro h
    simp [retrieveResults, h]
  · intro h1 h2
    simp [retrieveResults, h1, h2]
  · intro h1 h2
    simp [retrieveResults, h1, h2]

/-- Witness for C7 at concrete batches: an in-progress batch is not
ready, a completed batch with no output file reports no output, and a
completed batch with output `" a\n\nb "` yields the two non-empty
lines. -/
theorem fetch_results_behavior_witness :
    retrieveResults ⟨"in_progress", some "f1"⟩ "x" =
        .error (.notReady "in_progress") ∧
    retrieveResults ⟨"completed", none⟩ "x" = .error .noOutput ∧
    retrieveResults ⟨"completed", some "f1"⟩ " a\n\nb " = .ok ["a", "b"] := by
  refine ⟨?_, ?_, ?_⟩
  · exact (fetch_results_behavior ⟨"in_progress", some "f1"⟩ "x").1 (by decide)
  · exact (fetch_results_behavior ⟨"completed", none⟩ "x").2.1 rfl (by decide)
  · have h := (fetch_results_behavior ⟨"completed", some "f1"⟩ " a\n\nb ").2.2
      rfl (by decide)
    have hx : ((strippedLines " a\n\nb ").filter fun line => line ≠ "") =
        ["a", "b"] := by decide
    rw [h, hx]

/-- C1 counterexample: with `max_attempts = 3` and the metadata carried
forward, the third call to `retry_failed_requests` still sees
`retry_attempt = 2 < 3`, so it returns a new batch id — not `None` as
the claim states — and appends nothing to the dead-letter ledger. -/
theorem retry_termination_counterexample :
    (retryFailedRequests ["req"]
      (retryFailedRequests ["req"]
        (retryFailedRequests ["req"] {} 3 [] "t1" "b1").2.1
        3 [] "t2" "b2").2.1
      3 [] "t3" "b3").1 = some "b3" ∧
    (retryFailedRequests ["req"]
      (retryFailedRequests ["req"]
        (retryFailedRequests ["req"] {} 3 [] "t1" "b1").2.1
        3 [] "t2" "b2").2.1
      3 [] "t3" "b3").2.2 = [] := by
  exact ⟨rfl, rfl⟩

/-- C1 amended. Retry termination: with `max_attempts = 3` and the
metadata carried forward from each call to the next, the first three
calls to `retry_failed_requests` return a new batch id (writing
`retry_attempt` 1, 2, 3), and the fourth call returns `None` with every
failed request appended to the dead-letter ledger. -/
theorem retry_termination_amended :
    ∀ (failed : List String) (ledger : List FailedEntry)
      (t1 t2 t3 t4 b1 b2 b3 b4 : String),
      retryFailedRequests failed {} 3 ledger t1 b1 =
        (some b1, { retryAttempt := some 1 }, ledger) ∧
      retryFailedRequests failed { retryAttempt := some 1 } 3 ledger t2 b2 =
        (some b2, { retryAttempt := some 2 }, ledger) ∧
      retryFailedRequests failed { retryAttempt := some 2 } 3 ledger t3 b3 =
        (some b3, { retryAttempt := some 3 }, ledger) ∧
      retryFailedRequests failed { retryAttempt := some 3 } 3 ledger t4 b4 =
        (none, { retryAttempt := some 3 },
          ledger ++ failed.map fun req =>
            ⟨req, { retryAttempt := some 3 }, t4⟩) := by
  intro failed ledger t1 t2 t3 t4 b1 b2 b3 b4
  exact ⟨rfl, rfl, rfl, rfl⟩

/-- C5. Idempotent aggregation: for every database, aggregate state,
entity, topic and non-empty result list, running
`update_aggregations` twice with the same results leaves both the MK
documents and the per-topic documents exactly as running it once — the
second call fully overwrites the first. -/
theorem idempotent_aggregation :
    ∀ (db : Int → Option PersonMetadata) (st : AggState) (personId : Int)
      (topic : String) (scoredSpeeches : List ScoredSpeech),
      scoredSpeeches ≠ [] →
      updateAggregations db
          (updateAggregations db st personId topic scoredSpeeches)
          personId topic scoredSpeeches =
        updateAggregations db st personId topic scoredSpeeches := by
  intro db st personId topic scoredSpeeches hne
  simp only [updateAggregations, if_neg hne]
  exact congrArg₂ AggState.mk
    (updateMkJson_idem db st.mkDocs personId topic scoredSpeeches.length _)
    (updateTopicJson_idem st.topicFiles topic personId scoredSpeeches.length _)

/-- Witness for C5 at a concrete database, empty state and one-row
result list. -/
theorem idempotent_aggregation_witness :
    updateAggregations aggDb (updateAggregations aggDb aggState0 9 "health" aggR0)
        9 "health" aggR0 =
      updateAggregations aggDb aggState0 9 "health" aggR0 :=
  idempotent_aggregation aggDb aggState0 9 "health" aggR0 (by decide)

/-- C4 is the invariant the spec requires of intermediate artifacts; the
code appends a chunk's rows unconditionally, so appending the same
chunk twice duplicates its rows instead of leaving the artifact as
after one append: evaluated at a one-row chunk, the row ends up in the
artifact twice. -/
theorem intermediate_append_duplicates :
    saveFilteredSpeeches (saveFilteredSpeeches [] [⟨1, "txt", 3⟩])
        [⟨1, "txt", 3⟩] ≠
      saveFilteredSpeeches [] [⟨1, "txt", 3⟩] ∧
    (saveFilteredSpeeches (saveFilteredSpeeches [] [⟨1, "txt", 3⟩])
        [⟨1, "txt", 3⟩]).count ⟨1, "txt", 3⟩ = 2 :=
  ⟨by decide, by decide⟩

/-- C10. The stored `Reasoning` field: the scoring request's custom id
encodes the reasoning flag as its third component (`"1"` exactly when
reasoning was requested), the processor recovers exactly that flag, and
the stored field equals the model's rationale only when the flag is set
and the rationale is non-empty — in every other case (no request, empty
or missing rationale, or an unsolicited rationale) it is `""`. -/
theorem reasoning_field_conditional :
    ∀ (speechId : Int) (includeReasoning : Bool) (rationale : Option String),
      hasReasoningOfParts (scoringCustomIdParts speechId includeReasoning) =
        some includeReasoning ∧
      (includeReasoning = true →
        (scoringCustomIdParts speechId includeReasoning).get? 2 = some "1") ∧
      (∀ s, rationale = some s → s ≠ "" →
        reasoningField true rationale = s) ∧
      (reasoningField false rationale = "") ∧
      (reasoningField includeReasoning none = "") ∧
      (reasoningField includeReasoning (some "") = "") := by
  intro speechId includeReasoning rationale
  refine ⟨?_, ?_, ?_, ?_, ?_, ?_⟩
  · cases includeReasoning <;> rfl
  · intro h; subst h; rfl
  · intro s hs hne
    subst hs
    simp [reasoningField, hne]
  · cases rationale with
    | none => rfl
    | some s => simp [reasoningField]
  · rfl
  · cases includeReasoning <;> simp [reasoningField]

/-- Witness for C10: a solicited non-empty rationale is stored verbatim,
an unsolicited one is dropped, and the flag round-trips through the
custom id. -/
theorem reasoning_field_conditional_witness :
    reasoningField true (some "why") = "why" ∧
    reasoningField false (some "why") = "" ∧
    hasReasoningOfParts (scoringCustomIdParts 123 true) = some true := by
  have h1 := reasoning_field_conditional 123 true (some "why")
  have h2 := reasoning_field_conditional 123 false (some "why")
  exact ⟨h1.2.2.1 "why" rfl (by decide), h2.2.2.2.1, h1.1⟩

/-- C2. Pending-set correctness: `get_pending_pairs "filter"` returns
exactly the candidates with no stored entry or stored status
`"pending"`, and `get_pending_pairs "score"` exactly those with stored
status `"filter_complete"`; on the store `{A:Pending, B:FilterComplete,
C:ScoreComplete}` the filter-pending set is `{A}` and the score-pending
set is `{B}`. -/
theorem pending_set_correctness :
    (∀ (st : Store) (pairs : List (Int × String)),
      getPendingPairs st "filter" pairs =
        pairs.filter fun pt =>
          match st (makeKey pt.1 pt.2) with
          | none => true
          | some rec => rec.status == "pending") ∧
    (∀ (st : Store) (pairs : List (Int × String)),
      getPendingPairs st "score" pairs =
        pairs.filter fun pt =>
          match st (makeKey pt.1 pt.2) with
          | none => false
          | some rec => rec.status == "filter_complete") ∧
    getPendingPairs scenarioStore "filter"
        [(1, "alpha"), (2, "beta"), (3, "gamma")] = [(1, "alpha")] ∧
    getPendingPairs scenarioStore "score"
        [(1, "alpha"), (2, "beta"), (3, "gamma")] = [(2, "beta")] := by
  refine ⟨?_, ?_, ?_, ?_⟩
  · intro st pairs
    unfold getPendingPairs
    apply List.filter_congr
    intro pt _
    cases h : st (makeKey pt.1 pt.2) <;> simp [h]
    rw [Bool.eq_iff_iff]; simp [beq_iff_eq]
  · intro st pairs
    unfold getPendingPairs
    apply List.filter_congr
    intro pt _
    cases h : st (makeKey pt.1 pt.2) <;> simp [h]
    rw [Bool.eq_iff_iff]; simp [beq_iff_eq]
  · decide
  · decide
